import Mathlib

/-!
# throttledwatcher: the debounce loop of `NewWatcher`

A shallow embedding of `throttledwatcher.go`.  The goroutine started by
`NewWatcher` is a loop around one four-way `select`; it is modelled as a state
record (`Loop`) together with the body of each `select` case (`selectStep`).
Time is counted in nanoseconds (`Nat`), the unit of Go's `time.Duration`.

The collaborators that are not part of the package are modelled by what the
loop can observe of them:

* `time.Timer` with the buffered-channel behaviour the source is written for
  (`t.C` has capacity one, `Stop` reports whether the timer was still active,
  an expiry that is already in `t.C` stays there until it is received);
* `filepath.Abs`, as a function that may fail;
* `fsnotify.Watcher`, as the two channels feeding the `select` and an
  open/closed flag.
-/

namespace ThrottledWatcher

/-! ## The timer (`time.Timer`) -/

/-- A `time.Timer`.  `when = some D` means the timer is active and due at
instant `D`; `chan = true` means an expiry value sits in the one-slot channel
`t.C`.  The `time.Time` carried by that value is never read by the loop, so
only the occupancy of the slot is recorded. -/
structure Timer where
  when : Option Nat
  chan : Bool
deriving DecidableEq, Repr

/-- The offset `time.NewTimer` and `Reset` add to the current instant:
a non-positive `Duration` makes the timer due at once. -/
def span (d : Int) : Nat := d.toNat

/-- `time.NewTimer(d)` called at instant `now`. -/
def NewTimer (now : Nat) (d : Int) : Timer :=
  { when := some (now + span d), chan := false }

/-- `t.Stop()`: the first component is the returned boolean (true when the
call stopped an active timer), the second the timer afterwards.  A value
already in `t.C` is left there. -/
def Timer.Stop (t : Timer) : Bool × Timer :=
  (t.when.isSome, { t with when := none })

/-- `t.Reset(d)` called at instant `now`. -/
def Timer.Reset (t : Timer) (now : Nat) (d : Int) : Timer :=
  { t with when := some (now + span d) }

/-- The runtime delivers the expiry once the timer is due: the timer becomes
inactive and a value is placed in `t.C` (the send is non-blocking, so a value
already there is kept). -/
def Timer.fire (t : Timer) (now : Nat) : Timer :=
  match t.when with
  | some D => if D ≤ now then { when := none, chan := true } else t
  | none => t

/-- `<-t.C`: the channel after a receive. -/
def Timer.recv (t : Timer) : Timer := { t with chan := false }

/-! ## The loop -/

/-- What the goroutine closure captures. -/
structure Config where
  fileToWatch : String
  deadTime : Int
  abs : String → Except String String

/-- Where the goroutine stands.
* `select`: waiting in the `select` (top of the `for`);
* `sending`: blocked in `w.C <- struct{}{}` (line 63);
* `draining`: blocked in `<-t.C` (line 54);
* `exited`: returned after the stop case. -/
inductive Pc where
  | select
  | sending
  | draining
  | exited
deriving DecidableEq, Repr

/-- The state of the goroutine and of the objects it owns.  `now` is the
current instant, `emitted` lists the instants at which a send on `w.C` was
received, `logged` the errors handed to `log.Println`, `watcherOpen` is false
once `watcher.Close()` has run. -/
structure Loop where
  now : Nat
  t : Timer
  timerRunning : Bool
  pc : Pc
  watcherOpen : Bool
  emitted : List Nat
  logged : List String
deriving DecidableEq, Repr

/-- The four cases of the `select`. -/
inductive Case where
  | event (name : String)
  | watcherErr (e : String)
  | timerC
  | stop
deriving DecidableEq, Repr

/-- Lines 46-47: the event is for our file when its name resolves and the
resolved path equals `fileToWatch`. -/
def isOurFile (cfg : Config) (name : String) : Bool :=
  match cfg.abs name with
  | .error _ => false
  | .ok eventFile => eventFile == cfg.fileToWatch

/-- Lines 51-56: `if timerRunning { if !t.Stop() { <-t.C } }`.  The result is
the timer on reaching `t.Reset`, or `none` when the receive on line 54 finds
`t.C` empty, in which case the goroutine blocks there. -/
def stopAndDrain (t : Timer) (timerRunning : Bool) : Option Timer :=
  if timerRunning then
    if !(t.Stop).1 then
      if (t.Stop).2.chan then some (t.Stop).2.recv else none
    else some (t.Stop).2
  else some t

/-- The body of the `select` case that was chosen, run from the top of the
loop at instant `s.now`. -/
def selectStep (cfg : Config) (s : Loop) : Case → Loop
  | .event name =>
    if isOurFile cfg name then
      match stopAndDrain s.t s.timerRunning with
      | some t1 => { s with t := t1.Reset s.now cfg.deadTime, timerRunning := true }
      | none => { s with t := (s.t.Stop).2, pc := .draining }
    else s
  | .watcherErr e => { s with logged := s.logged ++ [e] }
  | .timerC => { s with t := s.t.recv, timerRunning := false, pc := .sending }
  | .stop =>
    { s with t := if s.timerRunning then (s.t.Stop).2 else s.t,
             watcherOpen := false, pc := .exited }

/-- Whether a case of the `select` can be chosen: the timer case needs a value
in `t.C`; the other three channels are fed from outside. -/
def ready (s : Loop) : Case → Bool
  | .timerC => s.t.chan
  | _ => true

/-- The goroutine right after lines 40-41, started at instant `start`. -/
def initLoop (cfg : Config) (start : Nat) : Loop :=
  { now := start, t := NewTimer start cfg.deadTime, timerRunning := true,
    pc := .select, watcherOpen := true, emitted := [], logged := [] }

/-- Time passes until instant `now` (never backwards); the runtime fires the
timer if it is due by then. -/
def advance (s : Loop) (now : Nat) : Loop :=
  { s with now := max s.now now, t := s.t.fire (max s.now now) }

/-- A party offers a communication on one of the `select` channels.  It is
taken only while the goroutine waits in the `select` and the case is ready;
`none` means the offer is not taken (a sender stays blocked). -/
def offer (cfg : Config) (s : Loop) (c : Case) : Option Loop :=
  if s.pc = .select ∧ ready s c then some (selectStep cfg s c) else none

/-- A consumer receives from `w.C`: possible only while the goroutine is
blocked in the send; the loop then returns to the `select`. -/
def consumerRecv (s : Loop) : Option Loop :=
  if s.pc = .sending then
    some { s with pc := .select, emitted := s.emitted ++ [s.now] }
  else none

/-- `Watcher.Stop`: `w.stopChan <- struct{}{}`.  `none` means the send has
not been accepted, so `Stop` has not returned. -/
def Stop (cfg : Config) (s : Loop) : Option Loop := offer cfg s .stop

/-! ## Executions -/

/-- What can happen to a running watcher: time passes, a communication is
offered on one of the `select` channels, or a consumer receives from `w.C`. -/
inductive Action where
  | wait (upTo : Nat)
  | comm (c : Case)
  | recv
deriving DecidableEq, Repr

/-- One action of the environment.  `none` means the action is not possible in
this state (the party attempting it stays blocked). -/
def act (cfg : Config) (s : Loop) : Action → Option Loop
  | .wait u => some (advance s u)
  | .comm c => offer cfg s c
  | .recv => consumerRecv s

/-- Run a list of actions; an action that is not possible leaves the state as
it is. -/
def runActions (cfg : Config) (s : Loop) : List Action → Loop
  | [] => s
  | a :: rest => runActions cfg ((act cfg s a).getD s) rest

/-- The states a watcher started at `start` can be in. -/
inductive Reachable (cfg : Config) (start : Nat) : Loop → Prop where
  | init : Reachable cfg start (initLoop cfg start)
  | step (s s1 : Loop) (a : Action) :
      Reachable cfg start s → act cfg s a = some s1 → Reachable cfg start s1

/-! ## A prompt loop with a ready consumer -/

/-- The instant at which a loop waiting in the `select` can next take the
timer case: at once when a value is already in `t.C`, otherwise when the timer
falls due. -/
def due (s : Loop) : Option Nat :=
  if s.t.chan then some s.now else s.t.when.map (max s.now)

/-- The `select` takes the timer case and a consumer that is ready receives
the settled-event at the same instant. -/
def takeExpiry (cfg : Config) (s : Loop) : Loop :=
  (consumerRecv (selectStep cfg s .timerC)).getD s

/-- Time passes until instant `u` with nothing arriving on the subscription
and the stop channel.  The loop takes the timer case at the instant it becomes
ready and the consumer receives at once.  `tie` says what happens when that
instant is `u` itself, where something else is about to arrive: with
`tie = true` the timer case is taken first, with `tie = false` it is not
(Go's `select` may choose either). -/
def settle (cfg : Config) (tie : Bool) (s : Loop) (u : Nat) : Loop :=
  if s.pc = .select then
    match due s with
    | some a =>
      if a < u ∨ (a = u ∧ tie = true) then advance (takeExpiry cfg (advance s a)) u
      else advance s u
    | none => advance s u
  else advance s u

/-- What arrives from outside the loop. -/
inductive Input where
  | event (name : String)
  | watcherErr (e : String)
  | stop
deriving DecidableEq, Repr

/-- The `select` case an input arrives on. -/
def Input.toCase : Input → Case
  | .event name => .event name
  | .watcherErr e => .watcherErr e
  | .stop => .stop

/-- An input arrives: it is taken when the loop waits in its `select`;
otherwise nothing happens to the loop. -/
def feed (cfg : Config) (s : Loop) (i : Input) : Loop :=
  (offer cfg s i.toCase).getD s

/-- Run a prompt loop on inputs stamped with their arrival instants. -/
def idealRun (cfg : Config) (tie : Bool) (s : Loop) : List (Nat × Input) → Loop
  | [] => s
  | (u, i) :: rest =>
    idealRun cfg tie (feed cfg (settle cfg tie s u) i) rest

/-- The state at instant `horizon` after the inputs have arrived, everything
due by `horizon` included. -/
def observe (cfg : Config) (tie : Bool) (s : Loop) (inputs : List (Nat × Input))
    (horizon : Nat) : Loop :=
  settle cfg true (idealRun cfg tie s inputs) horizon

/-- A burst of notifications for the tracked file, named `name`, at the given
instants. -/
def burst (name : String) (ts : List Nat) : List (Nat × Input) :=
  ts.map fun u => (u, Input.event name)

/-- An input that is not a notification for the tracked file and not a stop:
a subscription error, or a notification for another file. -/
def Input.inert (cfg : Config) : Input → Bool
  | .event name => !isOurFile cfg name
  | .watcherErr _ => true
  | .stop => false

/-- Whether an input is a subscription error. -/
def Input.isErr : Input → Bool
  | .watcherErr _ => true
  | _ => false

/-- Arrival instants do not decrease and none is before `lo`. -/
def timeOrdered (lo : Nat) : List (Nat × Input) → Prop
  | [] => True
  | (u, _) :: rest => lo ≤ u ∧ timeOrdered u rest

/-- Consecutive instants of a burst that starts at `t1` are increasing and
less than `d` apart. -/
def closeGaps (d : Nat) (t1 : Nat) : List Nat → Prop
  | [] => True
  | u :: rest => t1 < u ∧ u < t1 + d ∧ closeGaps d u rest

/-! ## Construction -/

/-- What `NewWatcher` meets outside the package: the results of
`filepath.Abs`, `filepath.Dir`, `fsnotify.NewWatcher` and `watcher.Add`, the
instant at which the goroutine starts, and what happens to the goroutine
between its start and the moment `watcher.Add` has returned. -/
structure Env where
  abs : String → Except String String
  dir : String → String
  newFsWatcher : Except String Unit
  add : String → Except String Unit
  start : Nat
  early : List Action

/-- How a call of `NewWatcher` ends.
* `ok loop`: `return &w, nil`, with the goroutine in state `loop`;
* `fail msg loop`: `return nil, errors.New(msg)`; `loop` is the goroutine, if
  one was started;
* `hang loop`: the call is blocked in `w.stopChan <- struct{}{}` (line 76)
  and does not return. -/
inductive Result where
  | ok (loop : Loop)
  | fail (msg : String) (loop : Option Loop)
  | hang (loop : Loop)
deriving DecidableEq, Repr

/-- The variables of `NewWatcher` the goroutine closes over. -/
def loopConfig (env : Env) (fileToWatch : String) (deadTime : Int) : Config :=
  { fileToWatch := fileToWatch, deadTime := deadTime, abs := env.abs }

/-- The function `NewWatcher`.  Until it returns nobody else holds `w`, so no
consumer can receive from `w.C` among the early actions. -/
def NewWatcher (env : Env) (file : String) (deadTime : Int) : Result :=
  match env.abs file with
  | .error e => .fail ("Couldn't get absolute path of file. " ++ e) none
  | .ok fileToWatch =>
    let directoryToWatch := env.dir fileToWatch
    match env.newFsWatcher with
    | .error e => .fail ("Couldn't establish watcher. " ++ e) none
    | .ok _ =>
      let cfg := loopConfig env fileToWatch deadTime
      let loop := runActions cfg (initLoop cfg env.start) (env.early.filter (· ≠ Action.recv))
      match env.add directoryToWatch with
      | .error e =>
        match Stop cfg loop with
        | some stopped => .fail ("Couldn't watch directory. " ++ e) (some stopped)
        | none => .hang loop
      | .ok _ => .ok loop

/-! ## The flag invariant -/

/-- The timer is counting down, or has expired with its value still in
`t.C`. -/
def Timer.outstanding (t : Timer) : Prop :=
  (t.when.isSome = true ∧ t.chan = false) ∨ (t.when = none ∧ t.chan = true)

/-- The timer is inactive and `t.C` is empty. -/
def Timer.idle (t : Timer) : Prop := t.when = none ∧ t.chan = false

/-- What holds of every state of a started watcher. -/
structure Inv (s : Loop) : Prop where
  noDrain : s.pc ≠ .draining
  flagT : s.pc = .select → s.timerRunning = true → s.t.outstanding
  flagF : s.pc ≠ .exited → s.timerRunning = false → s.t.idle
  sendF : s.pc = .sending → s.timerRunning = false
  consumed : s.pc = .select → s.timerRunning = false → s.emitted ≠ []

/-- The loop waits in its `select` with the timer outstanding: state `Armed`
of the transition table. -/
def Loop.Armed (s : Loop) : Prop :=
  s.pc = .select ∧ s.timerRunning = true ∧ s.t.outstanding

/-- The loop waits in its `select` after the expiry was consumed and before a
new notification for the tracked file: state `Fired` of the transition
table. -/
def Loop.Fired (s : Loop) : Prop :=
  s.pc = .select ∧ s.timerRunning = false ∧ s.t.idle

/-- The states a prompt loop with a ready consumer passes through. -/
def Loop.Good (s : Loop) : Prop := s.Armed ∨ s.Fired ∨ s.pc = .exited

/-- The state with the log forgotten. -/
def unlog (s : Loop) : Loop := { s with logged := [] }

/-- The state in which a prompt loop is left once it has taken the expiry at
instant `a` and time has passed until `u`. -/
def firedForm (s : Loop) (a u : Nat) : Loop :=
  { s with now := max a u, t := { when := none, chan := false }, timerRunning := false,
           emitted := s.emitted ++ [a] }

/-- Several bursts one after the other; each is given by its first instant
and the later ones. -/
def cycles (name : String) : List (Nat × List Nat) → List (Nat × Input)
  | [] => []
  | (t1, rest) :: more => burst name (t1 :: rest) ++ cycles name more

/-- The instant one dead-time after the last notification of each burst. -/
def settleTimes (d : Nat) (bursts : List (Nat × List Nat)) : List Nat :=
  bursts.map fun b => b.2.getLastD b.1 + d

/-- Every burst has close gaps, the first burst does not start before `lo`,
and each later burst starts after the settled-event of the one before it. -/
def spaced (d : Nat) (lo : Nat) : List (Nat × List Nat) → Prop
  | [] => True
  | (t1, rest) :: more =>
    lo ≤ t1 ∧ closeGaps d t1 rest ∧ spaced d (rest.getLastD t1 + d + 1) more

/-- A sample configuration: dead-time 200, paths already absolute, the empty
name does not resolve. -/
def sampleCfg : Config :=
  { fileToWatch := "/w/f", deadTime := 200,
    abs := fun n => if n = "" then .error "empty path" else .ok n }

/-- A sample surrounding in which registering the directory fails and, before
that, the timer of the new goroutine has expired and the goroutine has taken
the timer case. -/
def wedgeEnv : Env :=
  { abs := fun n => .ok ("/cwd/" ++ n),
    dir := fun _ => "/cwd/missing",
    newFsWatcher := .ok (),
    add := fun _ => .error "no such file or directory",
    start := 0,
    early := [.wait 1, .comm .timerC] }

/-! ## Proofs -/

theorem inv_init (cfg : Config) (start : Nat) : Inv (initLoop cfg start) := by
  constructor <;> simp [initLoop, NewTimer, Timer.outstanding]

theorem inv_advance (s : Loop) (u : Nat) (h : Inv s) : Inv (advance s u) := by
  obtain ⟨now, ⟨w, c⟩, tr, pc, wo, em, lg⟩ := s
  obtain ⟨h1, h2, h3, h4, h5⟩ := h
  constructor
  · simpa [advance] using h1
  · intro hp ht
    have := h2 hp ht
    cases w with
    | none => simpa [advance, Timer.fire, Timer.outstanding] using this
    | some D =>
      simp only [Timer.outstanding, Option.isSome_some, true_and, reduceCtorEq, false_and,
        or_false] at this
      simp only [advance, Timer.fire, Timer.outstanding]
      split <;> simp_all
  · intro hp ht
    have := h3 hp ht
    simp only [Timer.idle] at this
    simp [advance, Timer.fire, Timer.idle, this.1, this.2]
  · simpa [advance] using h4
  · simpa [advance] using h5

theorem inv_selectStep (cfg : Config) (s : Loop) (c : Case) (h : Inv s)
    (hp : s.pc = .select) (hr : ready s c = true) : Inv (selectStep cfg s c) := by
  obtain ⟨now, ⟨w, ch⟩, tr, pc, wo, em, lg⟩ := s
  obtain ⟨h1, h2, h3, h4, h5⟩ := h
  simp only at hp
  subst hp
  simp only [forall_const, ne_eq, reduceCtorEq, not_false_eq_true] at h2 h3 h5
  cases c with
  | event name =>
    by_cases hn : isOurFile cfg name = true
    · cases tr with
      | true =>
        have := h2 rfl
        cases w <;> cases ch <;>
          simp_all [selectStep, stopAndDrain, Timer.Stop, Timer.Reset, Timer.recv,
            Timer.outstanding, Timer.idle] <;>
          constructor <;> simp [Timer.outstanding, Timer.idle]
      | false =>
        have := h3 rfl
        simp only [Timer.idle] at this
        simp only [selectStep, hn, stopAndDrain, Timer.Reset]
        constructor <;> simp [Timer.outstanding, this.2]
    · simp only [selectStep, hn]
      exact ⟨by simp, fun _ => h2, fun _ => h3, by simp, fun _ => h5⟩
  | watcherErr e =>
    exact ⟨by simp [selectStep], fun _ => h2, fun _ => h3, by simp [selectStep], fun _ => h5⟩
  | timerC =>
    simp only [ready] at hr
    subst hr
    cases tr with
    | true =>
      have := h2 rfl
      cases w <;> simp_all [Timer.outstanding]
      constructor <;> simp [selectStep, Timer.recv, Timer.idle]
    | false =>
      have := h3 rfl
      simp [Timer.idle] at this
  | stop =>
    constructor <;> simp [selectStep]

theorem inv_act (cfg : Config) (s s1 : Loop) (a : Action) (h : Inv s)
    (ha : act cfg s a = some s1) : Inv s1 := by
  cases a with
  | wait u =>
    simp only [act, Option.some.injEq] at ha
    subst ha
    exact inv_advance s u h
  | comm c =>
    simp only [act, offer] at ha
    split at ha
    · rename_i hc
      simp only [Option.some.injEq] at ha
      subst ha
      exact inv_selectStep cfg s c h hc.1 hc.2
    · simp at ha
  | recv =>
    simp only [act, consumerRecv] at ha
    split at ha
    · rename_i hc
      simp only [Option.some.injEq] at ha
      subst ha
      have hf := h.sendF hc
      have hi := h.flagF (by simp [hc]) hf
      constructor <;> simp_all
    · simp at ha

theorem inv_reachable (cfg : Config) (start : Nat) (s : Loop)
    (h : Reachable cfg start s) : Inv s := by
  induction h with
  | init => exact inv_init cfg start
  | step s s1 a _ ha ih => exact inv_act cfg s s1 a ih ha

/-! ## Blocked and terminal states -/

theorem offer_none_of_pc (cfg : Config) (s : Loop) (c : Case) (h : s.pc ≠ .select) :
    offer cfg s c = none := by
  simp [offer, h]

theorem runActions_exited (cfg : Config) (acts : List Action) (s : Loop)
    (h : s.pc = .exited) :
    (runActions cfg s acts).pc = .exited ∧
    (runActions cfg s acts).emitted = s.emitted ∧
    (runActions cfg s acts).logged = s.logged ∧
    (runActions cfg s acts).timerRunning = s.timerRunning ∧
    (runActions cfg s acts).watcherOpen = s.watcherOpen := by
  induction acts generalizing s with
  | nil => simp [runActions, h]
  | cons a rest ih =>
    cases a with
    | wait u =>
      have := ih (advance s u) (by simpa [advance] using h)
      simpa [runActions, act, advance] using this
    | comm c =>
      simpa [runActions, act, offer, h] using ih s h
    | recv =>
      simpa [runActions, act, consumerRecv, h] using ih s h

theorem runActions_sending (cfg : Config) (acts : List Action) (s : Loop)
    (h : s.pc = .sending) (hr : Action.recv ∉ acts) :
    (runActions cfg s acts).pc = .sending ∧
    (runActions cfg s acts).emitted = s.emitted ∧
    (runActions cfg s acts).logged = s.logged ∧
    (runActions cfg s acts).timerRunning = s.timerRunning ∧
    (runActions cfg s acts).watcherOpen = s.watcherOpen := by
  induction acts generalizing s with
  | nil => simp [runActions, h]
  | cons a rest ih =>
    have hr1 : Action.recv ∉ rest := fun hm => hr (List.mem_cons_of_mem _ hm)
    cases a with
    | wait u =>
      have := ih (advance s u) (by simpa [advance] using h) hr1
      simpa [runActions, act, advance] using this
    | comm c =>
      simpa [runActions, act, offer, h] using ih s h hr1
    | recv => simp at hr

/-! ## The claims about single steps -/

/-- C2 (non-interference): in every state in which the loop waits in its
select, a notification whose name cannot be resolved to an absolute path, or
resolves to a path other than the tracked file, is taken and leaves the whole
state as it was: timer, deadline, timerRunning flag, the settled-events
emitted so far, and the loop is still waiting in the select. -/
theorem other_file_notification_changes_nothing (cfg : Config) (s : Loop) (name : String)
    (hs : s.pc = .select)
    (hname : (∃ e, cfg.abs name = .error e) ∨
      (∃ p, cfg.abs name = .ok p ∧ p ≠ cfg.fileToWatch)) :
    offer cfg s (.event name) = some s := by
  have hn : isOurFile cfg name = false := by
    rcases hname with ⟨e, he⟩ | ⟨p, hp, hne⟩
    · simp [isOurFile, he]
    · simp [isOurFile, hp, hne]
  simp [offer, hs, ready, selectStep, hn]

/-- C2, two instances: a notification for another file, and one whose name
does not resolve. -/
theorem other_file_notification_changes_nothing_witness :
    offer sampleCfg (initLoop sampleCfg 0) (.event "/w/other") = some (initLoop sampleCfg 0) ∧
    offer sampleCfg (initLoop sampleCfg 0) (.event "") = some (initLoop sampleCfg 0) :=
  ⟨other_file_notification_changes_nothing sampleCfg (initLoop sampleCfg 0) "/w/other" rfl
      (Or.inr ⟨"/w/other", by simp [sampleCfg], by simp [sampleCfg]⟩),
    other_file_notification_changes_nothing sampleCfg (initLoop sampleCfg 0) "" rfl
      (Or.inl ⟨"empty path", by simp [sampleCfg]⟩)⟩

/-- C4 (clean stop): in every state in which the loop waits in its select, the
stop signal is accepted; the step cancels the timer when timerRunning is set,
closes the subscription and leaves the loop exited.  Whatever happens
afterwards, the loop stays exited, takes no further communication (no
notification, error, timer expiry or second stop), no consumer can receive
from C, and the settled-events and the log stay as they were at the stop. -/
theorem stop_is_clean_and_final (cfg : Config) (s : Loop) (hs : s.pc = .select) :
    ∃ s1, Stop cfg s = some s1 ∧
      s1.pc = .exited ∧ s1.watcherOpen = false ∧
      s1.t = (if s.timerRunning then (s.t.Stop).2 else s.t) ∧
      (s.timerRunning = true → s1.t.when = none) ∧
      s1.emitted = s.emitted ∧ s1.logged = s.logged ∧
      ∀ acts : List Action,
        (runActions cfg s1 acts).pc = .exited ∧
        (runActions cfg s1 acts).watcherOpen = false ∧
        (runActions cfg s1 acts).emitted = s.emitted ∧
        (runActions cfg s1 acts).logged = s.logged ∧
        (∀ c, offer cfg (runActions cfg s1 acts) c = none) ∧
        consumerRecv (runActions cfg s1 acts) = none := by
  refine ⟨selectStep cfg s .stop, by simp [Stop, offer, hs, ready], rfl, rfl, rfl, ?_, rfl, rfl, ?_⟩
  · intro h
    simp [selectStep, h, Timer.Stop]
  · intro acts
    obtain ⟨h1, h2, h3, _, h5⟩ := runActions_exited cfg acts (selectStep cfg s .stop) rfl
    refine ⟨h1, by simpa [selectStep] using h5, by simpa [selectStep] using h2,
      by simpa [selectStep] using h3, ?_, ?_⟩
    · intro c
      exact offer_none_of_pc cfg _ c (by simp [h1])
    · simp [consumerRecv, h1]

/-- C4, an instance: stop right after the start, then a late expiry offer. -/
theorem stop_is_clean_and_final_witness :
    ∃ s1, Stop sampleCfg (initLoop sampleCfg 0) = some s1 ∧
      s1.pc = .exited ∧ s1.watcherOpen = false ∧ s1.t.when = none ∧
      (runActions sampleCfg s1 [.wait 500, .comm .timerC, .recv]).emitted = [] := by
  obtain ⟨s1, h1, h2, h3, _, h5, _, _, h8⟩ :=
    stop_is_clean_and_final sampleCfg (initLoop sampleCfg 0) rfl
  exact ⟨s1, h1, h2, h3, h5 rfl, (h8 [.wait 500, .comm .timerC, .recv]).2.2.1⟩

/-- C7 (blocking-send wedge): once the timer case has been taken the loop is
blocked sending on C.  In that state no communication on any select channel is
taken, so Stop does not return; only a consumer receiving from C is possible.
Along every continuation without such a receive the loop stays blocked in the
send, processes no notification, error or stop signal, and the subscription is
never closed. -/
theorem blocked_send_wedges_the_loop (cfg : Config) (s0 s : Loop)
    (h : offer cfg s0 .timerC = some s) :
    s.pc = .sending ∧ s.watcherOpen = s0.watcherOpen ∧
    (∀ c, offer cfg s c = none) ∧ Stop cfg s = none ∧
    (consumerRecv s).isSome = true ∧
    ∀ acts : List Action, Action.recv ∉ acts →
      (runActions cfg s acts).pc = .sending ∧
      (runActions cfg s acts).watcherOpen = s0.watcherOpen ∧
      (runActions cfg s acts).emitted = s0.emitted ∧
      (runActions cfg s acts).logged = s0.logged ∧
      (∀ c, offer cfg (runActions cfg s acts) c = none) ∧
      Stop cfg (runActions cfg s acts) = none := by
  simp only [offer] at h
  split at h
  · simp only [Option.some.injEq] at h
    subst h
    have hp : (selectStep cfg s0 .timerC).pc = .sending := rfl
    refine ⟨hp, rfl, fun c => offer_none_of_pc cfg _ c (by simp [hp]),
      offer_none_of_pc cfg _ _ (by simp [hp]), by simp [consumerRecv, hp], ?_⟩
    intro acts hr
    obtain ⟨h1, h2, h3, _, h5⟩ := runActions_sending cfg acts (selectStep cfg s0 .timerC) hp hr
    exact ⟨h1, by simpa [selectStep] using h5, by simpa [selectStep] using h2,
      by simpa [selectStep] using h3, fun c => offer_none_of_pc cfg _ c (by simp [h1]),
      offer_none_of_pc cfg _ _ (by simp [h1])⟩
  · simp at h

/-- C7, an instance: the first expiry is taken and nobody receives. -/
theorem blocked_send_wedges_the_loop_witness :
    Stop sampleCfg (selectStep sampleCfg (advance (initLoop sampleCfg 0) 200) .timerC) = none ∧
    (runActions sampleCfg (selectStep sampleCfg (advance (initLoop sampleCfg 0) 200) .timerC)
      [.wait 900, .comm .stop, .comm (.event "/w/f")]).watcherOpen = true := by
  have h := blocked_send_wedges_the_loop sampleCfg (advance (initLoop sampleCfg 0) 200)
    (selectStep sampleCfg (advance (initLoop sampleCfg 0) 200) .timerC) rfl
  exact ⟨h.2.2.2.1,
    (h.2.2.2.2.2 [.wait 900, .comm .stop, .comm (.event "/w/f")] (by simp)).2.1⟩

/-- C8 (drain on cancel): in every state in which the loop waits in its select
with timerRunning set and the timer expired but its value still in the timer
channel, a notification for the tracked file is taken without blocking; after
the step the timer channel is empty, the timer is due exactly one dead-time
after the notification, no settled-event has been emitted, and at every
instant earlier than that deadline the timer case of the select is not ready. -/
theorem stale_expiry_is_drained (cfg : Config) (s : Loop) (name : String)
    (hs : s.pc = .select) (hrun : s.timerRunning = true)
    (hexp : s.t.when = none) (hfull : s.t.chan = true)
    (hname : cfg.abs name = .ok cfg.fileToWatch) :
    ∃ s1, offer cfg s (.event name) = some s1 ∧
      s1.pc = .select ∧ s1.timerRunning = true ∧
      s1.t.chan = false ∧ s1.t.when = some (s.now + span cfg.deadTime) ∧
      s1.emitted = s.emitted ∧
      ∀ u, (advance s1 u).now < s.now + span cfg.deadTime →
        ready (advance s1 u) .timerC = false ∧ offer cfg (advance s1 u) .timerC = none := by
  have hn : isOurFile cfg name = true := by simp [isOurFile, hname]
  obtain ⟨now, ⟨w, c⟩, tr, pc, wo, em, lg⟩ := s
  simp only at hs hrun hexp hfull
  subst hs hrun hexp hfull
  have ho : offer cfg ⟨now, ⟨none, true⟩, true, .select, wo, em, lg⟩ (.event name) =
      some (selectStep cfg ⟨now, ⟨none, true⟩, true, .select, wo, em, lg⟩ (.event name)) := by
    simp [offer, ready]
  have hstep : selectStep cfg ⟨now, ⟨none, true⟩, true, .select, wo, em, lg⟩ (.event name) =
      ⟨now, ⟨some (now + span cfg.deadTime), false⟩, true, .select, wo, em, lg⟩ := by
    simp [selectStep, hn, stopAndDrain, Timer.Stop, Timer.recv, Timer.Reset]
  rw [hstep] at ho
  refine ⟨_, ho, rfl, rfl, rfl, rfl, rfl, ?_⟩
  intro u hu
  have hlt : ¬ (now + span cfg.deadTime ≤ max now u) := by
    simp only [advance] at hu
    omega
  simp [offer, ready, advance, Timer.fire, hlt]

/-- C8, an instance: the timer expired at 200 and its value was not received;
a notification at 200 restarts it for 400. -/
theorem stale_expiry_is_drained_witness :
    ∃ s1, offer sampleCfg (advance (initLoop sampleCfg 0) 200) (.event "/w/f") = some s1 ∧
      s1.t = { when := some 400, chan := false } ∧
      offer sampleCfg (advance s1 399) .timerC = none := by
  obtain ⟨s1, h1, _, _, h4, h5, _, h7⟩ :=
    stale_expiry_is_drained sampleCfg (advance (initLoop sampleCfg 0) 200) "/w/f"
      rfl rfl rfl rfl (by simp [sampleCfg])
  have hw : s1.t.when = some 400 := by
    simpa [advance, initLoop, span, sampleCfg] using h5
  have hnow : (advance s1 399).now < (advance (initLoop sampleCfg 0) 200).now +
      span sampleCfg.deadTime := by
    have hs1 : s1 = selectStep sampleCfg (advance (initLoop sampleCfg 0) 200) (.event "/w/f") := by
      have : offer sampleCfg (advance (initLoop sampleCfg 0) 200) (.event "/w/f") =
          some (selectStep sampleCfg (advance (initLoop sampleCfg 0) 200) (.event "/w/f")) := rfl
      rw [this] at h1
      exact (Option.some.inj h1).symm
    subst hs1
    decide
  refine ⟨s1, h1, ?_, (h7 399 hnow).2⟩
  cases hst : s1.t with
  | mk w c =>
    rw [hst] at h4 hw
    simp only at h4 hw
    subst h4 hw
    rfl

/-! ## Facts about the prompt loop -/

theorem fire_fire (t : Timer) (m1 m2 : Nat) (h : m1 ≤ m2) :
    (t.fire m1).fire m2 = t.fire m2 := by
  obtain ⟨w, c⟩ := t
  cases w with
  | none => simp [Timer.fire]
  | some D =>
    by_cases h1 : D ≤ m1
    · have h2 : D ≤ m2 := by omega
      simp [Timer.fire, h1, h2]
    · simp [Timer.fire, h1]

theorem advance_advance (s : Loop) (u1 u2 : Nat) (h : u1 ≤ u2) :
    advance (advance s u1) u2 = advance s u2 := by
  have hm : max (max s.now u1) u2 = max s.now u2 := by omega
  simp only [advance, hm]
  rw [fire_fire _ _ _ (by omega)]

theorem settle_of_not_select (cfg : Config) (tie : Bool) (s : Loop) (u : Nat)
    (h : s.pc ≠ .select) : settle cfg tie s u = advance s u := by
  simp [settle, h]

theorem settle_fired (cfg : Config) (tie : Bool) (s : Loop) (u : Nat) (h : s.Fired) :
    settle cfg tie s u = { s with now := max s.now u } := by
  obtain ⟨now, ⟨w, c⟩, tr, pc, wo, em, lg⟩ := s
  obtain ⟨h1, h2, h3, h4⟩ := h
  simp only at h1 h2 h3 h4
  subst h1 h2 h3 h4
  simp [settle, due, advance, Timer.fire]

theorem armed_due (s : Loop) (h : s.Armed) : ∃ a, due s = some a ∧ s.now ≤ a := by
  obtain ⟨now, ⟨w, c⟩, tr, pc, wo, em, lg⟩ := s
  obtain ⟨_, _, h3⟩ := h
  rcases h3 with ⟨hw, hc⟩ | ⟨hw, hc⟩
  · simp only at hw hc
    subst hc
    cases w with
    | none => simp at hw
    | some D => exact ⟨max now D, by simp [due], Nat.le_max_left now D⟩
  · simp only at hw hc
    subst hw hc
    exact ⟨now, by simp [due], le_refl _⟩

theorem settle_armed (cfg : Config) (tie : Bool) (s : Loop) (u a : Nat) (h : s.Armed)
    (ha : due s = some a) :
    settle cfg tie s u =
      if a < u ∨ (a = u ∧ tie = true) then firedForm s a u else advance s u := by
  obtain ⟨now, ⟨w, c⟩, tr, pc, wo, em, lg⟩ := s
  obtain ⟨h1, h2, h3⟩ := h
  simp only at h1 h2
  subst h1 h2
  rcases h3 with ⟨hw, hc⟩ | ⟨hw, hc⟩
  · simp only at hw hc
    subst hc
    cases w with
    | none => simp at hw
    | some D =>
      simp only [due, Bool.false_eq_true, if_false, Option.map_some', Option.some.injEq] at ha
      subst ha
      have e1 : max now (max now D) = max now D := by omega
      have e2 : D ≤ max now D := by omega
      simp only [settle, due, Bool.false_eq_true, if_false, Option.map_some', if_true]
      split
      · simp [advance, takeExpiry, selectStep, consumerRecv, Timer.fire, Timer.recv, firedForm,
          e1, e2]
      · rfl
  · simp only at hw hc
    subst hw hc
    simp only [due, if_true, Option.some.injEq] at ha
    subst ha
    simp only [settle, due, if_true]
    split
    · simp [advance, takeExpiry, selectStep, consumerRecv, Timer.fire, Timer.recv, firedForm]
    · rfl

theorem armed_advance (s : Loop) (u a : Nat) (h : s.Armed) (ha : due s = some a)
    (hu : u ≤ a) : (advance s u).Armed ∧ due (advance s u) = some a := by
  obtain ⟨now, ⟨w, c⟩, tr, pc, wo, em, lg⟩ := s
  obtain ⟨h1, h2, h3⟩ := h
  simp only at h1 h2
  subst h1 h2
  rcases h3 with ⟨hw, hc⟩ | ⟨hw, hc⟩
  · simp only at hw hc
    subst hc
    cases w with
    | none => simp at hw
    | some D =>
      simp only [due, Bool.false_eq_true, if_false, Option.map_some', Option.some.injEq] at ha
      subst ha
      by_cases hD : D ≤ max now u
      · have e : max now u = max now D := by omega
        simp [advance, Timer.fire, hD, Loop.Armed, Timer.outstanding, due, e]
      · have e : max (max now u) D = max now D := by omega
        simp [advance, Timer.fire, hD, Loop.Armed, Timer.outstanding, due, e]
  · simp only at hw hc
    subst hw hc
    simp only [due, if_true, Option.some.injEq] at ha
    subst ha
    have e : max now u = now := by omega
    simp [advance, Timer.fire, Loop.Armed, Timer.outstanding, due, e]

theorem firedForm_fired (s : Loop) (a u : Nat) (h : s.pc = .select) :
    (firedForm s a u).Fired := by
  simp [firedForm, Loop.Fired, Timer.idle, h]

theorem firedForm_advance (s : Loop) (u1 a u2 : Nat) :
    firedForm (advance s u1) a u2 = firedForm s a u2 := by
  simp [firedForm, advance]

/-- Letting time pass in two stretches is the same as letting it pass in
one. -/
theorem settle_settle (cfg : Config) (tie1 tie2 : Bool) (s : Loop) (u1 u2 : Nat)
    (hg : s.Good) (hu : u1 < u2 ∨ (u1 = u2 ∧ (tie1 = true → tie2 = true))) :
    settle cfg tie2 (settle cfg tie1 s u1) u2 = settle cfg tie2 s u2 := by
  have hle : u1 ≤ u2 := by omega
  rcases hg with hA | hF | hE
  · obtain ⟨a, ha, hna⟩ := armed_due s hA
    rw [settle_armed cfg tie1 s u1 a hA ha, settle_armed cfg tie2 s u2 a hA ha]
    by_cases c1 : a < u1 ∨ (a = u1 ∧ tie1 = true)
    · have c2 : a < u2 ∨ (a = u2 ∧ tie2 = true) := by
        rcases c1 with c | ⟨c, ht⟩
        · left; omega
        · rcases hu with hu | ⟨hu, himp⟩
          · left; omega
          · right; exact ⟨by omega, himp ht⟩
      rw [if_pos c1, if_pos c2, settle_fired cfg tie2 _ u2 (firedForm_fired s a u1 hA.1)]
      have e : max (max a u1) u2 = max a u2 := by omega
      simp [firedForm, e]
    · have hua : u1 ≤ a := by
        by_contra hc
        exact c1 (Or.inl (by omega))
      obtain ⟨hA1, hd1⟩ := armed_advance s u1 a hA ha hua
      rw [if_neg c1, settle_armed cfg tie2 _ u2 a hA1 hd1, firedForm_advance s u1 a u2,
        advance_advance s u1 u2 hle]
  · rw [settle_fired cfg tie1 s u1 hF, settle_fired cfg tie2 s u2 hF]
    have hF1 : ({ s with now := max s.now u1 } : Loop).Fired := hF
    rw [settle_fired cfg tie2 _ u2 hF1]
    have e : max (max s.now u1) u2 = max s.now u2 := by omega
    simp [e]
  · have hne : s.pc ≠ .select := by simp [hE]
    rw [settle_of_not_select cfg tie1 s u1 hne, settle_of_not_select cfg tie2 s u2 hne,
      settle_of_not_select cfg tie2 _ u2 (by simpa [advance] using hne),
      advance_advance s u1 u2 hle]

theorem unlog_advance (s : Loop) (u : Nat) :
    unlog (advance s u) = unlog (advance (unlog s) u) := by
  simp [unlog, advance]

theorem unlog_settle (cfg : Config) (tie : Bool) (s : Loop) (u : Nat) :
    unlog (settle cfg tie s u) = unlog (settle cfg tie (unlog s) u) := by
  have hd : due (unlog s) = due s := by simp [due, unlog]
  have hp : (unlog s).pc = s.pc := rfl
  simp only [settle, hd, hp]
  split
  · cases due s with
    | none => exact unlog_advance s u
    | some a =>
      simp only
      split
      · simp [unlog, advance, takeExpiry, selectStep, consumerRecv]
      · exact unlog_advance s u
  · exact unlog_advance s u

theorem unlog_feed (cfg : Config) (s : Loop) (i : Input) :
    unlog (feed cfg s i) = unlog (feed cfg (unlog s) i) := by
  have hp : (unlog s).pc = s.pc := rfl
  by_cases hs : s.pc = .select
  · cases i with
    | event name =>
      simp only [feed, offer, hp, hs, Input.toCase, ready, and_self, if_true, Option.getD_some,
        selectStep]
      split
      · have e1 : (unlog s).t = s.t := rfl
        have e2 : (unlog s).timerRunning = s.timerRunning := rfl
        rw [e1, e2]
        cases stopAndDrain s.t s.timerRunning <;> simp [unlog]
      · simp [unlog]
    | watcherErr e => simp [feed, offer, hp, hs, Input.toCase, ready, selectStep, unlog]
    | stop => simp [feed, offer, hp, hs, Input.toCase, ready, selectStep, unlog]
  · simp [feed, offer, hp, hs, unlog]

theorem unlog_idealRun (cfg : Config) (tie : Bool) (inputs : List (Nat × Input)) (s : Loop) :
    unlog (idealRun cfg tie s inputs) = unlog (idealRun cfg tie (unlog s) inputs) := by
  induction inputs generalizing s with
  | nil => simp [idealRun, unlog]
  | cons p rest ih =>
    obtain ⟨u, i⟩ := p
    simp only [idealRun]
    rw [ih (feed cfg (settle cfg tie s u) i), ih (feed cfg (settle cfg tie (unlog s) u) i)]
    have e : unlog (feed cfg (settle cfg tie s u) i) =
        unlog (feed cfg (settle cfg tie (unlog s) u) i) := by
      rw [unlog_feed cfg (settle cfg tie s u) i, unlog_settle cfg tie s u, ← unlog_feed]
    rw [e]

/-- The log has no influence on what a prompt loop does. -/
theorem unlog_observe (cfg : Config) (tie : Bool) (inputs : List (Nat × Input)) (x y : Loop)
    (T : Nat) (h : unlog x = unlog y) :
    unlog (observe cfg tie x inputs T) = unlog (observe cfg tie y inputs T) := by
  simp only [observe]
  rw [unlog_settle cfg true (idealRun cfg tie x inputs) T,
    unlog_settle cfg true (idealRun cfg tie y inputs) T,
    unlog_idealRun cfg tie inputs x, unlog_idealRun cfg tie inputs y, h]

theorem feed_inert (cfg : Config) (s : Loop) (i : Input) (h : i.inert cfg = true) :
    unlog (feed cfg s i) = unlog s := by
  by_cases hs : s.pc = .select
  · cases i with
    | event name =>
      simp only [Input.inert, Bool.not_eq_true'] at h
      simp [feed, offer, hs, Input.toCase, ready, selectStep, h]
    | watcherErr e => simp [feed, offer, hs, Input.toCase, ready, selectStep, unlog]
    | stop => simp [Input.inert] at h
  · simp [feed, offer, hs]

theorem feed_ours (cfg : Config) (s : Loop) (name : String) (hs : s.Armed ∨ s.Fired)
    (hn : isOurFile cfg name = true) :
    feed cfg s (.event name) =
      { s with t := { when := some (s.now + span cfg.deadTime), chan := false },
               timerRunning := true } := by
  obtain ⟨now, ⟨w, c⟩, tr, pc, wo, em, lg⟩ := s
  rcases hs with ⟨h1, h2, h3⟩ | ⟨h1, h2, h3, h4⟩
  · simp only at h1 h2
    subst h1 h2
    rcases h3 with ⟨hw, hc⟩ | ⟨hw, hc⟩
    · simp only at hw hc
      subst hc
      cases w with
      | none => simp at hw
      | some D =>
        simp [feed, offer, Input.toCase, ready, selectStep, hn, stopAndDrain, Timer.Stop,
          Timer.Reset]
    · simp only at hw hc
      subst hw hc
      simp [feed, offer, Input.toCase, ready, selectStep, hn, stopAndDrain, Timer.Stop,
        Timer.Reset, Timer.recv]
  · simp only at h1 h2 h3 h4
    subst h1 h2 h3 h4
    simp [feed, offer, Input.toCase, ready, selectStep, hn, stopAndDrain, Timer.Reset]

theorem good_settle (cfg : Config) (tie : Bool) (s : Loop) (u : Nat) (h : s.Good) :
    (settle cfg tie s u).Good := by
  rcases h with hA | hF | hE
  · obtain ⟨a, ha, hna⟩ := armed_due s hA
    rw [settle_armed cfg tie s u a hA ha]
    split
    · exact Or.inr (Or.inl (firedForm_fired s a u hA.1))
    · rename_i c
      have hua : u ≤ a := by
        by_contra hc
        exact c (Or.inl (by omega))
      exact Or.inl (armed_advance s u a hA ha hua).1
  · rw [settle_fired cfg tie s u hF]
    exact Or.inr (Or.inl hF)
  · rw [settle_of_not_select cfg tie s u (by simp [hE])]
    exact Or.inr (Or.inr (by simpa [advance] using hE))

theorem good_feed (cfg : Config) (s : Loop) (i : Input) (h : s.Good) :
    (feed cfg s i).Good := by
  rcases h with hA | hF | hE
  · cases i with
    | event name =>
      by_cases hn : isOurFile cfg name = true
      · rw [feed_ours cfg s name (Or.inl hA) hn]
        exact Or.inl ⟨hA.1, rfl, Or.inl ⟨rfl, rfl⟩⟩
      · have e : feed cfg s (.event name) = s := by
          simp [feed, offer, hA.1, Input.toCase, ready, selectStep, hn]
        rw [e]; exact Or.inl hA
    | watcherErr e =>
      have e1 : feed cfg s (.watcherErr e) = { s with logged := s.logged ++ [e] } := by
        simp [feed, offer, hA.1, Input.toCase, ready, selectStep]
      rw [e1]; exact Or.inl hA
    | stop =>
      right; right
      simp [feed, offer, hA.1, Input.toCase, ready, selectStep]
  · cases i with
    | event name =>
      by_cases hn : isOurFile cfg name = true
      · rw [feed_ours cfg s name (Or.inr hF) hn]
        exact Or.inl ⟨hF.1, rfl, Or.inl ⟨rfl, rfl⟩⟩
      · have e : feed cfg s (.event name) = s := by
          simp [feed, offer, hF.1, Input.toCase, ready, selectStep, hn]
        rw [e]; exact Or.inr (Or.inl hF)
    | watcherErr e =>
      have e1 : feed cfg s (.watcherErr e) = { s with logged := s.logged ++ [e] } := by
        simp [feed, offer, hF.1, Input.toCase, ready, selectStep]
      rw [e1]; exact Or.inr (Or.inl hF)
    | stop =>
      right; right
      simp [feed, offer, hF.1, Input.toCase, ready, selectStep]
  · have e : feed cfg s i = s := by simp [feed, offer, hE]
    rw [e]; exact Or.inr (Or.inr hE)

/-- A stretch of time before the next input, or before the horizon, can be
left out. -/
theorem observe_settle (cfg : Config) (tie tie1 : Bool) (s : Loop) (u1 : Nat)
    (inputs : List (Nat × Input)) (T : Nat) (hg : s.Good) (hT : u1 ≤ T)
    (hin : ∀ p, inputs.head? = some p →
      u1 < p.1 ∨ (u1 = p.1 ∧ (tie1 = true → tie = true))) :
    observe cfg tie (settle cfg tie1 s u1) inputs T = observe cfg tie s inputs T := by
  cases inputs with
  | nil =>
    simp only [observe, idealRun]
    exact settle_settle cfg tie1 true s u1 T hg (by
      rcases Nat.lt_or_ge u1 T with h | h
      · exact Or.inl h
      · exact Or.inr ⟨by omega, fun _ => rfl⟩)
  | cons p rest =>
    obtain ⟨u, i⟩ := p
    simp only [observe, idealRun]
    rw [settle_settle cfg tie1 tie s u1 u hg (hin (u, i) rfl)]

theorem timeOrdered_mono (lo lo1 : Nat) (inputs : List (Nat × Input)) (h : lo1 ≤ lo)
    (ho : timeOrdered lo inputs) : timeOrdered lo1 inputs := by
  cases inputs with
  | nil => trivial
  | cons p rest =>
    obtain ⟨u, i⟩ := p
    exact ⟨by have := ho.1; omega, ho.2⟩

/-- Inputs that satisfy `keep = false` and are inert can be removed from a
time-ordered run without changing anything but the log. -/
theorem observe_filter (cfg : Config) (tie : Bool) (keep : Input → Bool)
    (hk : ∀ i, keep i = false → i.inert cfg = true)
    (inputs : List (Nat × Input)) (s : Loop) (lo T : Nat) (hg : s.Good)
    (ho : timeOrdered lo inputs) (hT : ∀ p ∈ inputs, p.1 ≤ T) :
    unlog (observe cfg tie s inputs T) =
      unlog (observe cfg tie s (inputs.filter fun p => keep p.2) T) := by
  induction inputs generalizing s lo with
  | nil => rfl
  | cons p rest ih =>
    obtain ⟨u, i⟩ := p
    have hT1 : ∀ p ∈ rest, p.1 ≤ T := fun p hp => hT p (List.mem_cons_of_mem _ hp)
    have huT : u ≤ T := hT (u, i) (List.mem_cons_self _ _)
    by_cases hki : keep i = true
    · have e : (List.filter (fun p => keep p.2) ((u, i) :: rest)) =
          (u, i) :: List.filter (fun p => keep p.2) rest := by
        simp [List.filter, hki]
      rw [e]
      have := ih (feed cfg (settle cfg tie s u) i) u
        (good_feed cfg _ i (good_settle cfg tie s u hg)) ho.2 hT1
      simpa [observe, idealRun] using this
    · have hki0 : keep i = false := by simpa using hki
      have e : (List.filter (fun p => keep p.2) ((u, i) :: rest)) =
          List.filter (fun p => keep p.2) rest := by
        simp [List.filter, hki0]
      rw [e, ← ih s u hg ho.2 hT1]
      have e1 : observe cfg tie s ((u, i) :: rest) T =
          observe cfg tie (feed cfg (settle cfg tie s u) i) rest T := rfl
      rw [e1, unlog_observe cfg tie rest _ _ T (feed_inert cfg _ i (hk i hki0)),
        observe_settle cfg tie tie s u rest T hg huT]
      intro q hq
      cases rest with
      | nil => simp at hq
      | cons r rest1 =>
        simp only [List.head?_cons, Option.some.injEq] at hq
        subst hq
        have : u ≤ r.1 := ho.2.1
        rcases Nat.lt_or_ge u r.1 with h | h
        · exact Or.inl h
        · exact Or.inr ⟨by omega, fun h => h⟩

theorem idealRun_append (cfg : Config) (tie : Bool) (xs ys : List (Nat × Input)) (s : Loop) :
    idealRun cfg tie s (xs ++ ys) = idealRun cfg tie (idealRun cfg tie s xs) ys := by
  induction xs generalizing s with
  | nil => rfl
  | cons p rest ih =>
    obtain ⟨u, i⟩ := p
    simp only [List.cons_append, idealRun]
    exact ih _

theorem getLastD_cons_eq (u x : Nat) (more : List Nat) :
    (u :: more).getLastD x = more.getLastD u := by
  cases more <;> simp [List.getLastD]

theorem settle_before_due (cfg : Config) (tie : Bool) (s : Loop) (u D : Nat)
    (hp : s.pc = .select) (hr : s.timerRunning = true)
    (ht : s.t = { when := some D, chan := false }) (hn : s.now < D) (hu : u < D) :
    settle cfg tie s u = { s with now := max s.now u } := by
  obtain ⟨now, t, tr, pc, wo, em, lg⟩ := s
  simp only at hp hr ht hn
  subst hp hr ht
  have hA : Loop.Armed ⟨now, ⟨some D, false⟩, true, .select, wo, em, lg⟩ :=
    ⟨rfl, rfl, Or.inl ⟨rfl, rfl⟩⟩
  have hd : due ⟨now, ⟨some D, false⟩, true, .select, wo, em, lg⟩ = some D := by
    have e : max now D = D := by omega
    simp [due, e]
  rw [settle_armed cfg tie _ u D hA hd]
  have c : ¬ (D < u ∨ (D = u ∧ tie = true)) := by omega
  have hm : ¬ (D ≤ max now u) := by omega
  rw [if_neg c]
  simp [advance, Timer.fire, hm]

theorem settle_past_due (cfg : Config) (tie : Bool) (s : Loop) (u D : Nat)
    (hp : s.pc = .select) (hr : s.timerRunning = true)
    (ht : s.t = { when := some D, chan := false }) (hn : s.now ≤ D)
    (hu : D < u ∨ (D = u ∧ tie = true)) :
    settle cfg tie s u = firedForm s D u := by
  obtain ⟨now, t, tr, pc, wo, em, lg⟩ := s
  simp only at hp hr ht hn
  subst hp hr ht
  have hA : Loop.Armed ⟨now, ⟨some D, false⟩, true, .select, wo, em, lg⟩ :=
    ⟨rfl, rfl, Or.inl ⟨rfl, rfl⟩⟩
  have hd : due ⟨now, ⟨some D, false⟩, true, .select, wo, em, lg⟩ = some D := by
    have e : max now D = D := by omega
    simp [due, e]
  rw [settle_armed cfg tie _ u D hA hd, if_pos hu]

/-- A burst with close gaps, run from a state whose timer was just restarted:
the loop takes every notification, each restarts the timer, and nothing is
emitted. -/
theorem idealRun_burst (cfg : Config) (tie : Bool) (name : String)
    (hn : isOurFile cfg name = true) (rest : List Nat) (s : Loop)
    (hp : s.pc = .select) (hr : s.timerRunning = true)
    (ht : s.t = { when := some (s.now + span cfg.deadTime), chan := false })
    (hgap : closeGaps (span cfg.deadTime) s.now rest) :
    idealRun cfg tie s (burst name rest) =
      { s with now := rest.getLastD s.now,
               t := { when := some (rest.getLastD s.now + span cfg.deadTime), chan := false } } := by
  induction rest generalizing s with
  | nil =>
    simp only [burst, List.map_nil, idealRun, List.getLastD]
    rw [← ht]
  | cons u more ih =>
    obtain ⟨h1, h2, h3⟩ := hgap
    have e0 : settle cfg tie s u = { s with now := max s.now u } :=
      settle_before_due cfg tie s u _ hp hr ht (by omega) h2
    have hmax : max s.now u = u := by omega
    have hA : ({ s with now := max s.now u } : Loop).Armed :=
      ⟨hp, hr, Or.inl ⟨by simp [ht], by simp [ht]⟩⟩
    have e1 : feed cfg (settle cfg tie s u) (.event name) =
        { s with now := u, t := { when := some (u + span cfg.deadTime), chan := false } } := by
      rw [e0, feed_ours cfg _ name (Or.inl hA) hn]
      simp [hmax, hr]
    have := ih { s with now := u, t := { when := some (u + span cfg.deadTime), chan := false } }
      hp hr rfl h3
    simp only [burst, List.map_cons, idealRun]
    rw [e1]
    simp only [burst] at this
    rw [this, getLastD_cons_eq]

theorem span_pos (d : Int) (h : 0 < d) : 0 < span d := by
  simp only [span]
  omega

theorem offer_eq_feed (cfg : Config) (s : Loop) (i : Input) (h : s.pc = .select) :
    offer cfg s i.toCase = some (feed cfg s i) := by
  cases i <;> simp [feed, offer, h, Input.toCase, ready]

theorem isOurFile_of_abs (cfg : Config) (name : String)
    (h : cfg.abs name = .ok cfg.fileToWatch) : isOurFile cfg name = true := by
  simp [isOurFile, h]

theorem pc_of_armed_or_fired (s : Loop) (h : s.Armed ∨ s.Fired) : s.pc = .select := by
  rcases h with h | h
  · exact h.1
  · exact h.1

/-- What is seen at the horizon after a burst was run from a state whose timer
was just restarted. -/
theorem observe_burst (cfg : Config) (tie : Bool) (name : String)
    (hn : isOurFile cfg name = true) (hd : 0 < span cfg.deadTime) (rest : List Nat) (s : Loop)
    (T : Nat) (hp : s.pc = .select) (hr : s.timerRunning = true)
    (ht : s.t = { when := some (s.now + span cfg.deadTime), chan := false })
    (hgap : closeGaps (span cfg.deadTime) s.now rest) :
    observe cfg tie s (burst name rest) T =
      if rest.getLastD s.now + span cfg.deadTime ≤ T then
        firedForm { s with now := rest.getLastD s.now }
          (rest.getLastD s.now + span cfg.deadTime) T
      else
        { s with now := max (rest.getLastD s.now) T,
                 t := { when := some (rest.getLastD s.now + span cfg.deadTime), chan := false } } := by
  simp only [observe]
  rw [idealRun_burst cfg tie name hn rest s hp hr ht hgap]
  split
  · rename_i h
    have key := settle_past_due cfg true
      { s with now := rest.getLastD s.now,
               t := { when := some (rest.getLastD s.now + span cfg.deadTime), chan := false } }
      T (rest.getLastD s.now + span cfg.deadTime) hp hr rfl
      (by simp only; omega) (by
        rcases Nat.lt_or_ge (rest.getLastD s.now + span cfg.deadTime) T with h1 | h1
        · exact Or.inl h1
        · exact Or.inr ⟨by omega, rfl⟩)
    rw [key]
    simp [firedForm]
  · rename_i h
    have key := settle_before_due cfg true
      { s with now := rest.getLastD s.now,
               t := { when := some (rest.getLastD s.now + span cfg.deadTime), chan := false } }
      T (rest.getLastD s.now + span cfg.deadTime) hp hr rfl
      (by simp only; omega) (by omega)
    rw [key]

/-! ## The claims about bursts, errors and the start of the loop -/

theorem getLastD_ge (d : Nat) (rest : List Nat) (t1 : Nat) (h : closeGaps d t1 rest) :
    t1 ≤ rest.getLastD t1 := by
  induction rest generalizing t1 with
  | nil => simp [List.getLastD]
  | cons u more ih =>
    rw [getLastD_cons_eq]
    have := ih u h.2.2
    have := h.1
    omega

/-- The first notification of a burst, arriving at instant `t1` at a loop
whose timer does not come due at `t1` itself: an expiry that was due earlier
has been taken and emitted before `t1`, and the notification restarts the
timer. -/
theorem first_notification (cfg : Config) (tie : Bool) (s : Loop) (name : String) (t1 : Nat)
    (hn : isOurFile cfg name = true) (hs : s.Armed ∨ s.Fired) (hnow : s.now ≤ t1)
    (hdue : due s ≠ some t1) :
    ∃ pre : List Nat, (∀ x ∈ pre, x < t1) ∧
      feed cfg (settle cfg tie s t1) (.event name) =
        { s with now := t1, t := { when := some (t1 + span cfg.deadTime), chan := false },
                 timerRunning := true, emitted := s.emitted ++ pre } := by
  have hmax : max s.now t1 = t1 := by omega
  rcases hs with hA | hF
  · obtain ⟨a, ha, hna⟩ := armed_due s hA
    have hne : a ≠ t1 := fun h => hdue (by rw [ha, h])
    rw [settle_armed cfg tie s t1 a hA ha]
    by_cases c : a < t1
    · rw [if_pos (Or.inl c)]
      refine ⟨[a], by simpa using c, ?_⟩
      rw [feed_ours cfg _ name (Or.inr (firedForm_fired s a t1 hA.1)) hn]
      have e : max a t1 = t1 := by omega
      simp [firedForm, e]
    · have c1 : ¬ (a < t1 ∨ (a = t1 ∧ tie = true)) := by
        rintro (h | ⟨h, _⟩)
        · exact c h
        · exact hne h
      rw [if_neg c1]
      refine ⟨[], by simp, ?_⟩
      rw [feed_ours cfg _ name (Or.inl (armed_advance s t1 a hA ha (by omega)).1) hn]
      simp [advance, hmax]
  · rw [settle_fired cfg tie s t1 hF]
    have hF1 : ({ s with now := max s.now t1 } : Loop).Fired := hF
    refine ⟨[], by simp, ?_⟩
    rw [feed_ours cfg _ name (Or.inr hF1) hn]
    simp [hmax]

/-- C1 as the claim states it fails when the timer comes due at the very
instant of the first notification.  Dead-time 200, loop started at 0 (Armed,
deadline 200), one notification for the tracked file at 200: the select may
take the timer case first, and then two settled-events are emitted from 200
onward, at 200 and at 400, the first of them inside the interval in which the
claim allows none.  The same run is given action by action. -/
theorem burst_at_due_instant_emits_twice :
    (initLoop sampleCfg 0).Armed ∧
    closeGaps (span sampleCfg.deadTime) 200 [] ∧
    (observe sampleCfg true (initLoop sampleCfg 0) (burst "/w/f" [200]) 1000).emitted
      = [200, 400] ∧
    (runActions sampleCfg (initLoop sampleCfg 0)
      [.wait 200, .comm .timerC, .recv, .comm (.event "/w/f"),
       .wait 400, .comm .timerC, .recv]).emitted = [200, 400] ∧
    ((observe sampleCfg true (initLoop sampleCfg 0) (burst "/w/f" [200]) 1000).emitted.filter
      fun x => decide (200 ≤ x)) ≠ [200 + span sampleCfg.deadTime] :=
  ⟨⟨rfl, rfl, Or.inl ⟨rfl, rfl⟩⟩, trivial, by decide, by decide, by decide⟩

/-- C1 (debounce correctness, amended): a loop that is Armed or Fired at an
instant not after `t1`, has emitted nothing at or after `t1`, and whose timer
does not come due at `t1` itself (no expiry is due or waiting in the timer
channel at that instant) receives notifications for the tracked file at
`t1` and then at increasing instants, each less than one (positive) dead-time
after the one before.  With a prompt loop and a ready consumer, however the
select breaks ties, the settled-events with an instant from `t1` onward that
have been emitted by any horizon `T` are exactly one, at the last notification
plus the dead-time, once `T` has reached that instant, and none while `T` is
earlier; what was emitted besides lies before `t1`.  The loop is then Fired,
and before that instant it is still armed for it. -/
theorem burst_settles_once_unless_due_at_first (cfg : Config) (tie : Bool) (s : Loop)
    (name : String) (t1 : Nat) (rest : List Nat) (T : Nat)
    (hd : 0 < cfg.deadTime)
    (hname : cfg.abs name = .ok cfg.fileToWatch)
    (hs : s.Armed ∨ s.Fired)
    (hnow : s.now ≤ t1)
    (hpast : ∀ x ∈ s.emitted, x < t1)
    (hdue : due s ≠ some t1)
    (hgap : closeGaps (span cfg.deadTime) t1 rest) :
    ((observe cfg tie s (burst name (t1 :: rest)) T).emitted.filter fun x => decide (t1 ≤ x)) =
      (if rest.getLastD t1 + span cfg.deadTime ≤ T
        then [rest.getLastD t1 + span cfg.deadTime] else []) ∧
    (∃ pre : List Nat, (∀ x ∈ pre, x < t1) ∧
      (observe cfg tie s (burst name (t1 :: rest)) T).emitted =
        s.emitted ++ pre ++
          (if rest.getLastD t1 + span cfg.deadTime ≤ T
            then [rest.getLastD t1 + span cfg.deadTime] else [])) ∧
    (rest.getLastD t1 + span cfg.deadTime ≤ T →
      (observe cfg tie s (burst name (t1 :: rest)) T).Fired) ∧
    (T < rest.getLastD t1 + span cfg.deadTime →
      (observe cfg tie s (burst name (t1 :: rest)) T).timerRunning = true ∧
      (observe cfg tie s (burst name (t1 :: rest)) T).t =
        { when := some (rest.getLastD t1 + span cfg.deadTime), chan := false }) := by
  have hn := isOurFile_of_abs cfg name hname
  have hp := pc_of_armed_or_fired s hs
  have hsp := span_pos cfg.deadTime hd
  have hlast := getLastD_ge (span cfg.deadTime) rest t1 hgap
  obtain ⟨pre, hpre, hfeed⟩ := first_notification cfg tie s name t1 hn hs hnow hdue
  have hrun : observe cfg tie s (burst name (t1 :: rest)) T =
      observe cfg tie (feed cfg (settle cfg tie s t1) (.event name)) (burst name rest) T := rfl
  rw [hrun, hfeed]
  rw [observe_burst cfg tie name hn hsp rest
    { s with now := t1, t := { when := some (t1 + span cfg.deadTime), chan := false },
             timerRunning := true, emitted := s.emitted ++ pre } T hp rfl rfl hgap]
  have hold : (s.emitted ++ pre).filter (fun x => decide (t1 ≤ x)) = [] := by
    rw [List.filter_eq_nil_iff]
    intro x hx
    rcases List.mem_append.mp hx with h | h
    · have := hpast x h
      simp only [decide_eq_true_eq]
      omega
    · have := hpre x h
      simp only [decide_eq_true_eq]
      omega
  by_cases h : rest.getLastD t1 + span cfg.deadTime ≤ T
  · rw [if_pos h, if_pos h]
    refine ⟨?_, ⟨pre, hpre, by simp [firedForm]⟩, fun _ => firedForm_fired _ _ _ hp,
      fun h2 => ?_⟩
    · have hge : t1 ≤ rest.getLastD t1 + span cfg.deadTime := by omega
      simp only [firedForm, List.filter_append, hold, List.nil_append]
      rw [List.filter_cons_of_pos (by simpa using hge)]
      rfl
    · omega
  · rw [if_neg h, if_neg h]
    refine ⟨?_, ⟨pre, hpre, by simp⟩, fun h2 => absurd h2 h, fun _ => ⟨rfl, rfl⟩⟩
    simpa using hold

/-- C1 amended, the scenario of the specification: dead-time 200, loop started
at 0, notifications for the tracked file at 0, 50 and 120 give exactly one
settled-event, at 320, and nothing by 319. -/
theorem burst_settles_once_unless_due_at_first_witness :
    due (initLoop sampleCfg 0) ≠ some 0 ∧
    (observe sampleCfg false (initLoop sampleCfg 0) (burst "/w/f" [0, 50, 120]) 1000).emitted
      = [320] ∧
    ((observe sampleCfg false (initLoop sampleCfg 0) (burst "/w/f" [0, 50, 120])
      1000).emitted.filter fun x => decide (0 ≤ x)) = [320] := by
  have hdue : due (initLoop sampleCfg 0) ≠ some 0 := by decide
  have h := burst_settles_once_unless_due_at_first sampleCfg false (initLoop sampleCfg 0)
    "/w/f" 0 [50, 120] 1000 (by decide) (by simp [sampleCfg])
    (Or.inl ⟨rfl, rfl, Or.inl ⟨rfl, rfl⟩⟩) (by simp [initLoop]) (by simp [initLoop]) hdue
    (by simp [closeGaps, span, sampleCfg])
  refine ⟨hdue, by decide, ?_⟩
  simpa [span, sampleCfg, List.getLastD] using h.1

theorem reachable_runActions (cfg : Config) (start : Nat) (acts : List Action) (s : Loop)
    (h : Reachable cfg start s) : Reachable cfg start (runActions cfg s acts) := by
  induction acts generalizing s with
  | nil => exact h
  | cons a rest ih =>
    simp only [runActions]
    cases ha : act cfg s a with
    | none => simpa using ih s h
    | some s1 => simpa using ih s1 (Reachable.step s s1 a h ha)

theorem outstanding_not_idle (t : Timer) (h1 : t.outstanding) (h2 : t.idle) : False := by
  obtain ⟨w, c⟩ := t
  obtain ⟨hw, hc⟩ := h2
  simp only at hw hc
  subst hw hc
  simp [Timer.outstanding] at h1

/-- C5 (error isolation): in every state the body of the error case changes
nothing but the log: timer, deadline, timerRunning flag, emitted
settled-events and the position of the loop stay as they were; and in every
state in which the loop waits in its select (Armed or Fired) a subscription
error is taken.  Consequently, for a prompt loop with
a ready consumer, a time-ordered run of inputs with subscription errors
inserted anywhere ends, at any horizon not before the last input, in the same
state up to the log, with the same settled-events at the same instants, as the
run with the errors removed. -/
theorem subscription_errors_are_isolated (cfg : Config) (tie : Bool) (s : Loop) (e : String)
    (inputs : List (Nat × Input)) (T : Nat)
    (hs : s.Armed ∨ s.Fired) (ho : timeOrdered s.now inputs) (hT : ∀ p ∈ inputs, p.1 ≤ T) :
    (∀ s0 : Loop, selectStep cfg s0 (.watcherErr e) = { s0 with logged := s0.logged ++ [e] }) ∧
    offer cfg s (.watcherErr e) = some { s with logged := s.logged ++ [e] } ∧
    unlog (observe cfg tie s inputs T) =
      unlog (observe cfg tie s (inputs.filter fun p => !p.2.isErr) T) ∧
    (observe cfg tie s inputs T).emitted =
      (observe cfg tie s (inputs.filter fun p => !p.2.isErr) T).emitted := by
  have hg : s.Good := by
    rcases hs with h | h
    · exact Or.inl h
    · exact Or.inr (Or.inl h)
  have hk : ∀ i : Input, (!i.isErr) = false → i.inert cfg = true := by
    intro i hi
    cases i <;> simp_all [Input.isErr, Input.inert]
  have key := observe_filter cfg tie (fun i => !i.isErr) hk inputs s s.now T hg ho hT
  refine ⟨fun _ => rfl, by simp [offer, pc_of_armed_or_fired s hs, ready, selectStep], key, ?_⟩
  have := congrArg Loop.emitted key
  simpa [unlog] using this

/-- C5, an instance: an error between two notifications of a burst. -/
theorem subscription_errors_are_isolated_witness :
    timeOrdered 0 [(0, Input.event "/w/f"), (10, Input.watcherErr "overflow"),
      (50, Input.event "/w/f")] ∧
    (observe sampleCfg false (initLoop sampleCfg 0)
      [(0, Input.event "/w/f"), (10, Input.watcherErr "overflow"), (50, Input.event "/w/f")]
      1000).emitted =
    (observe sampleCfg false (initLoop sampleCfg 0)
      [(0, Input.event "/w/f"), (50, Input.event "/w/f")] 1000).emitted := by
  have ho : timeOrdered (initLoop sampleCfg 0).now
      [(0, Input.event "/w/f"), (10, Input.watcherErr "overflow"), (50, Input.event "/w/f")] := by
    simp [timeOrdered, initLoop]
  have h := (subscription_errors_are_isolated sampleCfg false (initLoop sampleCfg 0) "overflow"
    [(0, Input.event "/w/f"), (10, Input.watcherErr "overflow"), (50, Input.event "/w/f")] 1000
    (Or.inl ⟨rfl, rfl, Or.inl ⟨rfl, rfl⟩⟩) ho (by simp)).2.2.2
  exact ⟨ho, by simpa [Input.isErr] using h⟩

/-- C9 (initial arming): when the three steps of NewWatcher succeed it returns
a watcher whose loop is in a state reachable from the initial one, and the
initial state is Armed with the timer due one full (positive) dead-time after
the start.  If nothing but subscription errors and notifications for other
files arrives, a prompt loop with a ready consumer has emitted, at any horizon
not before the last input, exactly one settled-event, at start plus dead-time,
once the horizon has reached that instant, and is then Fired; before that it
has emitted nothing.  Every reachable state in which the loop has not exited
has the timer outstanding or an expiry consumed (it is blocked in the send, or
a settled-event has been emitted). -/
theorem loop_starts_armed (env : Env) (file f : String) (deadTime : Int) (tie : Bool)
    (inputs : List (Nat × Input)) (T : Nat)
    (hd : 0 < deadTime) (habs : env.abs file = .ok f) (hw : env.newFsWatcher = .ok ())
    (hadd : env.add (env.dir f) = .ok ())
    (hin : ∀ p ∈ inputs, p.2.inert (loopConfig env f deadTime) = true)
    (ho : timeOrdered env.start inputs) (hT : ∀ p ∈ inputs, p.1 ≤ T) :
    (∃ loop, NewWatcher env file deadTime = .ok loop ∧
      Reachable (loopConfig env f deadTime) env.start loop) ∧
    (initLoop (loopConfig env f deadTime) env.start).Armed ∧
    (initLoop (loopConfig env f deadTime) env.start).t =
      { when := some (env.start + span deadTime), chan := false } ∧
    (observe (loopConfig env f deadTime) tie
        (initLoop (loopConfig env f deadTime) env.start) inputs T).emitted =
      (if env.start + span deadTime ≤ T then [env.start + span deadTime] else []) ∧
    (env.start + span deadTime ≤ T →
      (observe (loopConfig env f deadTime) tie
        (initLoop (loopConfig env f deadTime) env.start) inputs T).Fired) ∧
    ∀ s, Reachable (loopConfig env f deadTime) env.start s →
      s.pc = .exited ∨ s.t.outstanding ∨ s.pc = .sending ∨ s.emitted ≠ [] := by
  have hA : (initLoop (loopConfig env f deadTime) env.start).Armed :=
    ⟨rfl, rfl, Or.inl ⟨rfl, rfl⟩⟩
  have hsp := span_pos deadTime hd
  have key := observe_filter (loopConfig env f deadTime) tie
    (fun i => !i.inert (loopConfig env f deadTime))
    (fun i hi => by simpa using hi) inputs
    (initLoop (loopConfig env f deadTime) env.start) env.start T (Or.inl hA) ho hT
  have hfil : inputs.filter (fun p => !p.2.inert (loopConfig env f deadTime)) = [] := by
    rw [List.filter_eq_nil_iff]
    intro p hp
    simp [hin p hp]
  rw [hfil] at key
  have hnil : observe (loopConfig env f deadTime) tie
      (initLoop (loopConfig env f deadTime) env.start) [] T =
      if env.start + span deadTime ≤ T then
        firedForm (initLoop (loopConfig env f deadTime) env.start) (env.start + span deadTime) T
      else { initLoop (loopConfig env f deadTime) env.start with now := max env.start T } := by
    simp only [observe, idealRun]
    split
    · rename_i h
      exact settle_past_due _ true _ T (env.start + span deadTime) rfl rfl rfl
        (by simp only [initLoop]; omega) (by
          rcases Nat.lt_or_ge (env.start + span deadTime) T with h1 | h1
          · exact Or.inl h1
          · exact Or.inr ⟨by omega, rfl⟩)
    · rename_i h
      exact settle_before_due _ true _ T (env.start + span deadTime) rfl rfl rfl
        (by simp only [initLoop]; omega) (by omega)
  rw [hnil] at key
  have hem := congrArg Loop.emitted key
  have hpc := congrArg Loop.pc key
  have htr := congrArg Loop.timerRunning key
  have htm := congrArg Loop.t key
  simp only [unlog] at hem hpc htr htm
  refine ⟨?_, hA, rfl, ?_, ?_, ?_⟩
  · refine ⟨_, ?_, reachable_runActions (loopConfig env f deadTime) env.start
      (env.early.filter (· ≠ Action.recv)) _ (Reachable.init)⟩
    simp [NewWatcher, habs, hw, hadd]
  · rw [hem]
    split <;> simp [firedForm, initLoop]
  · intro h
    rw [if_pos h] at hpc htr htm
    exact ⟨hpc, htr, by rw [htm]; exact ⟨rfl, rfl⟩⟩
  · intro s hr
    have hinv := inv_reachable _ _ s hr
    cases hpc1 : s.pc with
    | select =>
      cases htr1 : s.timerRunning with
      | true => exact Or.inr (Or.inl (hinv.flagT hpc1 htr1))
      | false => exact Or.inr (Or.inr (Or.inr (hinv.consumed hpc1 htr1)))
    | sending => exact Or.inr (Or.inr (Or.inl rfl))
    | draining => exact absurd hpc1 hinv.noDrain
    | exited => exact Or.inl rfl

/-- C9, an instance: nothing but an error and a notification for another file
arrive, and one settled-event is emitted, at the dead-time. -/
theorem loop_starts_armed_witness :
    (observe (loopConfig wedgeEnv "/cwd/w/f" 200) false
      (initLoop (loopConfig wedgeEnv "/cwd/w/f" 200) 0)
      [(10, Input.watcherErr "overflow"), (250, Input.event "other")] 1000).emitted = [200] := by
  have h := (loop_starts_armed { wedgeEnv with add := fun _ => .ok () } "w/f" "/cwd/w/f" 200
    false [(10, Input.watcherErr "overflow"), (250, Input.event "other")] 1000
    (by decide) (by simp [wedgeEnv]) rfl rfl
    (by simp [Input.inert, isOurFile, loopConfig, wedgeEnv])
    (by simp [timeOrdered, wedgeEnv]) (by simp)).2.2.2.1
  simpa [span, wedgeEnv, loopConfig] using h

/-- C10 (flag invariant): in every reachable state in which the loop waits in
its select, timerRunning is true exactly when the timer is counting down or
has expired with its value still in the timer channel, and false exactly when
the timer is inactive with an empty channel.  Hence the stop-and-drain block
before Reset always gets through and leaves a stopped, drained timer for
Reset; a notification never leaves the loop blocked in the drain, and no
reachable state at all is blocked there. -/
theorem timerRunning_tracks_timer (cfg : Config) (start : Nat) (s : Loop)
    (h : Reachable cfg start s) (hs : s.pc = .select) :
    (s.timerRunning = true ↔ s.t.outstanding) ∧
    (s.timerRunning = false ↔ s.t.idle) ∧
    (∃ t1, stopAndDrain s.t s.timerRunning = some t1 ∧ t1.idle) ∧
    (∀ name, (selectStep cfg s (.event name)).pc = .select) ∧
    (∀ s1, Reachable cfg start s1 → s1.pc ≠ .draining) := by
  have hinv := inv_reachable cfg start s h
  have hT := hinv.flagT hs
  have hF := hinv.flagF (by simp [hs])
  have hdrain : ∃ t1, stopAndDrain s.t s.timerRunning = some t1 ∧ t1.idle := by
    cases htr : s.timerRunning with
    | true =>
      rcases hT htr with ⟨hw, hc⟩ | ⟨hw, hc⟩
      · exact ⟨⟨none, false⟩, by simp [stopAndDrain, Timer.Stop, hw, hc], rfl, rfl⟩
      · exact ⟨⟨none, false⟩, by simp [stopAndDrain, Timer.Stop, Timer.recv, hw, hc], rfl, rfl⟩
    | false => exact ⟨s.t, by simp [stopAndDrain], hF htr⟩
  refine ⟨⟨hT, fun ho => ?_⟩, ⟨hF, fun hi => ?_⟩, hdrain, ?_,
    fun s1 h1 => (inv_reachable cfg start s1 h1).noDrain⟩
  · cases htr : s.timerRunning with
    | true => rfl
    | false => exact absurd (hF htr) (fun hi => outstanding_not_idle s.t ho hi)
  · cases htr : s.timerRunning with
    | false => rfl
    | true => exact absurd hi (fun hi => outstanding_not_idle s.t (hT htr) hi)
  · intro name
    obtain ⟨t1, ht1, _⟩ := hdrain
    simp only [selectStep]
    split
    · rw [ht1]; exact hs
    · exact hs

/-- C10, an instance: the state after the first expiry was taken and
received. -/
theorem timerRunning_tracks_timer_witness :
    (runActions sampleCfg (initLoop sampleCfg 0)
      [.wait 200, .comm .timerC, .recv]).timerRunning = false ∧
    (runActions sampleCfg (initLoop sampleCfg 0) [.wait 200, .comm .timerC, .recv]).t.idle :=
  ⟨rfl, ((timerRunning_tracks_timer sampleCfg 0
    (runActions sampleCfg (initLoop sampleCfg 0) [.wait 200, .comm .timerC, .recv])
    (reachable_runActions sampleCfg 0 _ _ Reachable.init) rfl).2.1).mp rfl⟩

/-- C6 (failing run): with a dead-time of one nanosecond the timer of the new
goroutine expires while the directory is being registered; the goroutine takes
the timer case and blocks sending on C, which nobody can receive from yet.
When registration then fails, NewWatcher blocks on the stop channel: it does
not return, the goroutine stays blocked in the send with the subscription
open, and nothing that can still happen lets the stop signal through. -/
theorem newWatcher_hangs_when_registration_fails_after_expiry :
    ∃ loop, NewWatcher wedgeEnv "missing/f" 1 = .hang loop ∧
      loop.pc = .sending ∧ loop.watcherOpen = true ∧
      ∀ acts : List Action, Action.recv ∉ acts →
        Stop (loopConfig wedgeEnv "/cwd/missing/f" 1)
          (runActions (loopConfig wedgeEnv "/cwd/missing/f" 1) loop acts) = none ∧
        (runActions (loopConfig wedgeEnv "/cwd/missing/f" 1) loop acts).watcherOpen = true := by
  refine ⟨⟨1, ⟨none, false⟩, false, .sending, true, [], []⟩, by rfl, rfl, rfl, ?_⟩
  intro acts hr
  obtain ⟨h1, _, _, _, h5⟩ := runActions_sending (loopConfig wedgeEnv "/cwd/missing/f" 1) acts
    ⟨1, ⟨none, false⟩, false, .sending, true, [], []⟩ rfl hr
  exact ⟨offer_none_of_pc _ _ _ (by simp [h1]), h5⟩

theorem spaced_mono (d lo lo1 : Nat) (bursts : List (Nat × List Nat)) (h : lo1 ≤ lo)
    (hs : spaced d lo bursts) : spaced d lo1 bursts := by
  cases bursts with
  | nil => trivial
  | cons b more =>
    obtain ⟨t1, rest⟩ := b
    exact ⟨by have := hs.1; omega, hs.2⟩

theorem cycles_head (name : String) (d lo : Nat) (bursts : List (Nat × List Nat))
    (hs : spaced d lo bursts) (p : Nat × Input) (hp : (cycles name bursts).head? = some p) :
    lo ≤ p.1 := by
  cases bursts with
  | nil => simp [cycles] at hp
  | cons b more =>
    obtain ⟨t1, rest⟩ := b
    simp only [cycles, burst, List.map_cons, List.cons_append, List.head?_cons,
      Option.some.injEq] at hp
    subst hp
    exact hs.1

/-- Bursts that are spaced apart, run from a Fired state: one settled-event
per burst. -/
theorem observe_cycles (cfg : Config) (tie : Bool) (name : String)
    (hn : isOurFile cfg name = true) (hd : 0 < span cfg.deadTime) (T : Nat)
    (bursts : List (Nat × List Nat)) (s : Loop) (hs : s.Fired)
    (hsp : spaced (span cfg.deadTime) s.now bursts)
    (hT : ∀ b ∈ bursts, b.2.getLastD b.1 + span cfg.deadTime ≤ T) :
    (observe cfg tie s (cycles name bursts) T).emitted =
      s.emitted ++ settleTimes (span cfg.deadTime) bursts ∧
    (observe cfg tie s (cycles name bursts) T).Fired := by
  induction bursts generalizing s with
  | nil =>
    simp only [cycles, observe, idealRun, settleTimes, List.map_nil, List.append_nil]
    rw [settle_fired cfg true s T hs]
    exact ⟨rfl, hs⟩
  | cons b more ih =>
    obtain ⟨t1, rest⟩ := b
    obtain ⟨h1, h2, h3⟩ := hsp
    have hT1 : ∀ b ∈ more, b.2.getLastD b.1 + span cfg.deadTime ≤ T :=
      fun b hb => hT b (List.mem_cons_of_mem _ hb)
    have hTb : rest.getLastD t1 + span cfg.deadTime ≤ T := hT (t1, rest) (List.mem_cons_self _ _)
    have hmax : max s.now t1 = t1 := by omega
    -- the first notification of the burst
    have e0 : feed cfg (settle cfg tie s t1) (.event name) =
        { s with now := t1, t := { when := some (t1 + span cfg.deadTime), chan := false },
                 timerRunning := true } := by
      rw [settle_fired cfg tie s t1 hs]
      have hF : ({ s with now := max s.now t1 } : Loop).Fired := hs
      rw [feed_ours cfg _ name (Or.inr hF) hn]
      simp [hmax]
    -- the rest of the burst
    have e1 := idealRun_burst cfg tie name hn rest
      { s with now := t1, t := { when := some (t1 + span cfg.deadTime), chan := false },
               timerRunning := true } hs.1 rfl rfl h2
    -- the expiry after the burst
    have e2 := settle_past_due cfg true
      { s with now := rest.getLastD t1,
               t := { when := some (rest.getLastD t1 + span cfg.deadTime), chan := false },
               timerRunning := true }
      (rest.getLastD t1 + span cfg.deadTime) (rest.getLastD t1 + span cfg.deadTime)
      hs.1 rfl rfl (by simp only; omega) (Or.inr ⟨rfl, rfl⟩)
    have e3 := observe_settle cfg tie true
      { s with now := rest.getLastD t1,
               t := { when := some (rest.getLastD t1 + span cfg.deadTime), chan := false },
               timerRunning := true }
      (rest.getLastD t1 + span cfg.deadTime) (cycles name more) T
      (Or.inl ⟨hs.1, rfl, Or.inl ⟨rfl, rfl⟩⟩) hTb
      (fun p hp => Or.inl (by
        have := cycles_head name _ _ more h3 p hp
        omega))
    have hrun : observe cfg tie s (cycles name ((t1, rest) :: more)) T =
        observe cfg tie
          (firedForm
            { s with now := rest.getLastD t1,
                     t := { when := some (rest.getLastD t1 + span cfg.deadTime), chan := false },
                     timerRunning := true }
            (rest.getLastD t1 + span cfg.deadTime) (rest.getLastD t1 + span cfg.deadTime))
          (cycles name more) T := by
      rw [← e2, e3]
      simp only [observe, cycles, burst, List.map_cons, List.cons_append, idealRun,
        List.append_eq]
      rw [e0, idealRun_append]
      simp only [burst] at e1
      rw [e1]
    have hF2 := firedForm_fired
      { s with now := rest.getLastD t1,
               t := { when := some (rest.getLastD t1 + span cfg.deadTime), chan := false },
               timerRunning := true }
      (rest.getLastD t1 + span cfg.deadTime) (rest.getLastD t1 + span cfg.deadTime) hs.1
    have hsp2 : spaced (span cfg.deadTime)
        (firedForm
          { s with now := rest.getLastD t1,
                   t := { when := some (rest.getLastD t1 + span cfg.deadTime), chan := false },
                   timerRunning := true }
          (rest.getLastD t1 + span cfg.deadTime) (rest.getLastD t1 + span cfg.deadTime)).now
        more := by
      apply spaced_mono _ _ _ more _ h3
      simp [firedForm]
    obtain ⟨i1, i2⟩ := ih _ hF2 hsp2 hT1
    rw [hrun]
    refine ⟨?_, i2⟩
    rw [i1]
    simp [firedForm, settleTimes]

/-- C3 (multiple cycles): from the Fired state a notification for the tracked
file is taken, restarts the timer with the full (positive) dead-time and
leaves the loop Armed.  For any number of bursts of such notifications, each
with gaps shorter than the dead-time and each starting after the previous
burst has settled, a prompt loop with a ready consumer, however the select
breaks ties, has emitted at a horizon past the last burst exactly one further
settled-event per burst, one dead-time after the last notification of that
burst, in order, and is Fired again: the same watcher serves every cycle. -/
theorem every_cycle_settles_once (cfg : Config) (tie : Bool) (s : Loop) (name : String)
    (bursts : List (Nat × List Nat)) (T : Nat)
    (hd : 0 < cfg.deadTime)
    (hname : cfg.abs name = .ok cfg.fileToWatch)
    (hs : s.Fired)
    (hsp : spaced (span cfg.deadTime) s.now bursts)
    (hT : ∀ b ∈ bursts, b.2.getLastD b.1 + span cfg.deadTime ≤ T) :
    (∃ s1, offer cfg s (.event name) = some s1 ∧ s1.Armed ∧
      s1.t = { when := some (s.now + span cfg.deadTime), chan := false } ∧
      s1.emitted = s.emitted) ∧
    (observe cfg tie s (cycles name bursts) T).emitted =
      s.emitted ++ settleTimes (span cfg.deadTime) bursts ∧
    (observe cfg tie s (cycles name bursts) T).Fired := by
  have hn := isOurFile_of_abs cfg name hname
  refine ⟨⟨feed cfg s (.event name), offer_eq_feed cfg s (.event name) hs.1, ?_⟩,
    observe_cycles cfg tie name hn (span_pos _ hd) T bursts s hs hsp hT⟩
  rw [feed_ours cfg s name (Or.inr hs) hn]
  exact ⟨⟨hs.1, rfl, Or.inl ⟨rfl, rfl⟩⟩, rfl, rfl⟩

/-- C3, an instance: after a first settled-event at 200, a burst at 400 and 450
and a single notification at 1000 give settled-events at 650 and 1200. -/
theorem every_cycle_settles_once_witness :
    (observe sampleCfg true
      ⟨300, ⟨none, false⟩, false, .select, true, [200], []⟩
      (cycles "/w/f" [(400, [450]), (1000, [])]) 2000).emitted = [200, 650, 1200] := by
  have h := (every_cycle_settles_once sampleCfg true
    ⟨300, ⟨none, false⟩, false, .select, true, [200], []⟩ "/w/f"
    [(400, [450]), (1000, [])] 2000 (by decide) (by simp [sampleCfg])
    ⟨rfl, rfl, rfl, rfl⟩ (by simp [spaced, closeGaps, span, sampleCfg, List.getLastD])
    (by simp [span, sampleCfg, List.getLastD])).2.1
  simpa [settleTimes, span, sampleCfg, List.getLastD] using h

/-- When a step of NewWatcher fails and the goroutine, if started, is waiting
in its select, the failure is clean: no goroutine for the first two steps, an
exited one with the subscription closed for the third. -/
theorem newWatcher_failure_in_select (env : Env) (file : String) (deadTime : Int) :
    (∀ e, env.abs file = .error e →
      NewWatcher env file deadTime =
        .fail ("Couldn't get absolute path of file. " ++ e) none) ∧
    (∀ f e, env.abs file = .ok f → env.newFsWatcher = .error e →
      NewWatcher env file deadTime = .fail ("Couldn't establish watcher. " ++ e) none) ∧
    (∀ f e, env.abs file = .ok f → env.newFsWatcher = .ok () →
      env.add (env.dir f) = .error e →
      (runActions (loopConfig env f deadTime) (initLoop (loopConfig env f deadTime) env.start)
        (env.early.filter (· ≠ Action.recv))).pc = .select →
      ∃ stopped, NewWatcher env file deadTime =
          .fail ("Couldn't watch directory. " ++ e) (some stopped) ∧
        stopped.pc = .exited ∧ stopped.watcherOpen = false) := by
  refine ⟨fun e h => by simp [NewWatcher, h], fun f e h1 h2 => by simp [NewWatcher, h1, h2],
    fun f e h1 h2 h3 h4 => ?_⟩
  refine ⟨selectStep (loopConfig env f deadTime)
    (runActions (loopConfig env f deadTime) (initLoop (loopConfig env f deadTime) env.start)
      (env.early.filter (· ≠ Action.recv))) .stop, ?_, rfl, rfl⟩
  simp only [NewWatcher, h1, h2, h3, Stop, offer, h4, ready, and_self, if_true]

end ThrottledWatcher
